import Mathlib

/-!
# Verification development for the AnyGivenSunday live-standings pipeline

Shallow embedding of the repository's core logic:

* `html_parser.py` — `_to_int`, `_to_float`, `parse_dk_standings` (row
  extraction, keep/drop rule, rank sort).
* `calculate_win_probability.py` — `dfs_win_probs` (mean/variance columns,
  Monte Carlo winner tally, win probabilities).
* `data_downloader/scraper.py` — `scrape_standings` (scroll/re-extract loop
  with first-seen dedup by username).
* `scraper.py` / `scheduler.py` — target-config reading in
  `DraftKingsScraper.initialize` and the scheduler's start condition.

Python strings are modelled as `List Char` (`Str`); Python floats as `ℚ`
(exact arithmetic stands in for IEEE doubles) with `none : Option ℚ`
playing the role of NaN; numpy's `np.sqrt` is `Real.sqrt` on the rational
payload.  Effectful reads (Playwright locators, files) are modelled as
explicit input data.
-/

/-! ## Python string primitives on `List Char` -/

/-- Python strings, modelled as lists of characters. -/
abbrev Str := List Char

/-- Python `str.strip()`: drop leading and trailing whitespace. -/
def pyStrip (s : Str) : Str :=
  ((s.dropWhile Char.isWhitespace).reverse.dropWhile Char.isWhitespace).reverse

/-- Fuelled scan for Python `str.replace(pat, repl)`: replace every
non-overlapping occurrence of `pat`, scanning left to right.  The fuel is
the length of the string, which bounds the number of scan positions. -/
def pyReplaceAux (pat repl : Str) : ℕ → Str → Str
  | 0, s => s
  | _ + 1, [] => []
  | fuel + 1, c :: cs =>
    if pat ≠ [] ∧ pat.isPrefixOf (c :: cs) then
      repl ++ pyReplaceAux pat repl fuel ((c :: cs).drop pat.length)
    else
      c :: pyReplaceAux pat repl fuel cs

/-- Python `s.replace(pat, repl)` (for a non-empty pattern). -/
def pyReplace (s pat repl : Str) : Str :=
  pyReplaceAux pat repl s.length s

/-- Python `pat in s` (substring containment). -/
def pyContains : Str → Str → Bool
  | [], pat => pat.isPrefixOf []
  | c :: cs, pat => pat.isPrefixOf (c :: cs) || pyContains cs pat

/-! ## `html_parser.py`: the numeric-token regex

`NUM_RE = re.compile(r"[-+]?\d*\.?\d+")`; `_to_int` / `_to_float` first
remove every comma, then take the leftmost match of `NUM_RE` and convert it
with `float(...)` (for `_to_int`, truncated by `int(float(...))`). -/

/-- Value of a digit run as a natural number (digits are `'0'..'9'`). -/
def digitsVal (l : Str) : ℕ :=
  l.foldl (fun n c => 10 * n + (c.toNat - '0'.toNat)) 0

/-- The greedy match of `\d*\.?\d+` (an optional leading sign was already
consumed by the caller) starting exactly at the head of `l`: the matched
token, or `none` when the regex cannot match here.  Mirrors the regex
engine's backtracking: the fractional branch is taken when a `.` with at
least one following digit is available, else the integer-digit run must be
non-empty. -/
def matchNumBody (l : Str) : Option Str :=
  if (l.dropWhile Char.isDigit).head? = some '.' ∧
      ((l.dropWhile Char.isDigit).tail.takeWhile Char.isDigit) ≠ [] then
    some (l.takeWhile Char.isDigit ++
      '.' :: (l.dropWhile Char.isDigit).tail.takeWhile Char.isDigit)
  else if l.takeWhile Char.isDigit ≠ [] then
    some (l.takeWhile Char.isDigit)
  else none

/-- Match of `[-+]?\d*\.?\d+` anchored at the head of `l`. -/
def matchNumAt (l : Str) : Option Str :=
  if l.head? = some '+' ∨ l.head? = some '-' then
    (matchNumBody l.tail).map (fun t => l.head?.getD ' ' :: t)
  else matchNumBody l

/-- `re.search`: the leftmost match of the number regex in `l`. -/
def searchNum : Str → Option Str
  | [] => none
  | c :: cs =>
    match matchNumAt (c :: cs) with
    | some t => some t
    | none => searchNum cs

/-- Value of a signless matched token: integer digits, or integer and
fractional digit runs split at the `.`. -/
def tokenBody (t : Str) : ℚ :=
  if (t.dropWhile Char.isDigit).head? = some '.' then
    (digitsVal (t.takeWhile Char.isDigit) : ℚ) +
      (digitsVal ((t.dropWhile Char.isDigit).tail) : ℚ) /
        (10 : ℚ) ^ ((t.dropWhile Char.isDigit).tail).length
  else (digitsVal (t.takeWhile Char.isDigit) : ℚ)

/-- Numeric value of a matched token (as Python's `float` would read it,
with exact rational arithmetic standing in for the IEEE double). -/
def tokenVal (t : Str) : ℚ :=
  if t.head? = some '+' then tokenBody t.tail
  else if t.head? = some '-' then -(tokenBody t.tail)
  else tokenBody t

/-- Python `int(q)` applied to a float value: truncation toward zero. -/
def truncQ (q : ℚ) : ℤ :=
  if 0 ≤ q then ⌊q⌋ else ⌈q⌉

/-- `html_parser._to_float(text)`: `None` stays `None`; otherwise remove the
commas, search for the first number token, and take its value (`None` when
no token matches). -/
def toFloatPy (text : Option Str) : Option ℚ :=
  text.bind (fun s => (searchNum (s.filter (· ≠ ','))).map tokenVal)

/-- `html_parser._to_int(text)`: as `_to_float`, truncated toward zero. -/
def toIntPy (text : Option Str) : Option ℤ :=
  text.bind (fun s => (searchNum (s.filter (· ≠ ','))).map (fun t => truncQ (tokenVal t)))

example : toIntPy (some "  87 Pts".toList) = some 87 := by decide
example : toIntPy (some "1,234".toList) = some 1234 := by decide
example : toFloatPy (some "no number here".toList) = none := by decide
example : toFloatPy none = none := by decide

/-! ## `html_parser.parse_dk_standings`

A mounted row is modelled by the text each field's selector chain resolved
to: `none` when no selector of the chain matched an element, otherwise the
element's `get_text(strip=True)` string (which may be empty). -/

/-- The per-field texts one standings row's selectors resolved to. -/
structure RawRow where
  rankText : Option Str
  teamText : Option Str
  pmrText : Option Str
  fptsText : Option Str
  deriving DecidableEq

/-- One parsed standings row (`Rank, Team Name, PMR, FPTS`); `none` is a
pandas `NaN`/`None` cell. -/
structure Row where
  rank : Option ℤ
  teamName : Option Str
  pmr : Option ℤ
  fpts : Option ℚ
  deriving DecidableEq

/-- The FPTS cell text after `replace("FPTS", "").strip()`; the guard
`if fpts_text else None` maps both `None` and the empty string to `None`. -/
def fptsTextOf (r : RawRow) : Option Str :=
  match r.fptsText with
  | none => none
  | some s => if s = [] then none else some (pyStrip (pyReplace s "FPTS".toList []))

/-- One loop body of `parse_dk_standings`: extract the four fields, keep the
row iff at least one of them is not `None`. -/
def parseRow (r : RawRow) : Option Row :=
  let rank := toIntPy r.rankText
  let team := r.teamText
  let pmr := toIntPy r.pmrText
  let fpts := toFloatPy (fptsTextOf r)
  if rank.isSome ∨ team.isSome ∨ pmr.isSome ∨ fpts.isSome then
    some { rank := rank, teamName := team, pmr := pmr, fpts := fpts }
  else none

/-- Sort key of a row: its rank, with missing ranks greatest
(pandas `sort_values` keeps NaN keys last, `na_position='last'`). -/
def rkey (row : Row) : WithTop ℤ :=
  match row.rank with
  | none => ⊤
  | some n => (n : WithTop ℤ)

/-- Comparison used for the rank sort. -/
def rankLe (a b : Row) : Prop := rkey a ≤ rkey b

instance : DecidableRel rankLe := fun a b =>
  inferInstanceAs (Decidable (rkey a ≤ rkey b))

instance : IsTotal Row rankLe := ⟨fun a b => le_total (rkey a) (rkey b)⟩

instance : IsTrans Row rankLe := ⟨fun _ _ _ h h' => le_trans h h'⟩

/-- `html_parser.parse_dk_standings`, given the selector-resolved texts of
the mounted rows: parse each row, keep those with at least one resolved
field, and sort by rank (stable, missing ranks last) when the frame is
non-empty and at least one rank resolved (`df["Rank"].notna().any()`). -/
def parse_dk_standings (rs : List RawRow) : List Row :=
  let df := rs.filterMap parseRow
  if ¬df.isEmpty ∧ df.any (fun r => r.rank.isSome) then
    List.insertionSort rankLe df
  else df

example :
    parse_dk_standings
      [{ rankText := some "2".toList, teamText := some "bob".toList,
         pmrText := some "0".toList, fptsText := none },
       { rankText := some "1".toList, teamText := some "ann".toList,
         pmrText := some "12".toList, fptsText := none }] =
      [{ rank := some 1, teamName := some "ann".toList, pmr := some 12, fpts := none },
       { rank := some 2, teamName := some "bob".toList, pmr := some 0, fpts := none }] := by
  decide

/-! ## `calculate_win_probability.dfs_win_probs`

Pandas float columns are `Option ℚ` valued: `none` is NaN (the value a row
missing FPTS or PMR carries into the arithmetic — `dfs_win_probs` never
filters such rows out).  All elementwise numpy operations propagate NaN.

The normal draw `rng.normal(loc=mu_i, scale=std_i)` for trial `t` is
modelled by `mu_i + w t i` where `w t i : ℚ` is the (arbitrary) value
`std_i * z` of the scaled noise: a zero scale yields `loc` exactly, a NaN
`loc` or `scale` (NaN variance, or the NaN that `np.sqrt` makes of a
negative variance) yields NaN, and any other draw is `loc` plus some real.

`np.argmax` over one simulation column returns the first index of the
maximum; NaN propagates as maximal, so with NaN present it returns the
first NaN index. -/

/-- A float-or-NaN cell. -/
abbrev F := Option ℚ

/-- NaN-propagating addition. -/
def addF : F → F → F
  | some a, some b => some (a + b)
  | _, _ => none

/-- NaN-propagating division by a constant (`PMR / 4.0`). -/
def divC (x : F) (c : ℚ) : F := x.map (· / c)

/-- NaN-propagating multiplication by a constant (`sigma2 * PMR`). -/
def mulC (c : ℚ) (x : F) : F := x.map (c * ·)

/-- `np.sqrt` on a float column entry: NaN stays NaN, a negative argument
gives NaN (with a runtime warning), otherwise the real square root. -/
noncomputable def sqrtF : F → Option ℝ
  | none => none
  | some v => if v < 0 then none else some (Real.sqrt (v : ℝ))

/-- One row of the engine's input frame (`Team Name, FPTS, PMR`). -/
structure SimRow where
  teamName : Str
  fpts : F
  pmr : F
  deriving DecidableEq

/-- `mu = df["FPTS"].values + df["PMR"].values / 4.0`, per row. -/
def muF (r : SimRow) : F := addF r.fpts (divC r.pmr 4)

/-- `var = sigma2 * df["PMR"].values`, per row. -/
def varF (sigma2 : ℚ) (r : SimRow) : F := mulC sigma2 r.pmr

/-- One simulated final score `rng.normal(loc=mu, scale=sqrt(var))`:
exactly `mu` when the variance is zero, `mu` plus the scaled noise `wv`
when it is positive, NaN when `mu` or `var` is NaN or `var` is negative
(NaN scale). -/
def drawF (mu var : F) (wv : ℚ) : F :=
  match mu, var with
  | some m, some v => if v = 0 then some m else if 0 < v then some (m + wv) else none
  | _, _ => none

/-- `np.argmax` on one simulation column: index of the first NaN if any
(NaN propagates as maximal, numpy stops at the first one), else the first
index of the maximum; `0` on the empty list (numpy raises there). -/
def argmaxF : List F → ℕ
  | [] => 0
  | x :: xs =>
    if x.isNone then 0
    else
      match xs.get? (argmaxF xs) with
      | none => 0
      | some none => argmaxF xs + 1
      | some (some v) => if x.getD 0 < v then argmaxF xs + 1 else 0

/-- The simulated scores of the rows `l` for one trial, with `i` the index
of the first row of `l` in the whole frame (the noise is indexed by row). -/
def drawsFrom (sigma2 : ℚ) (w : ℕ → ℕ → ℚ) (t : ℕ) : ℕ → List SimRow → List F
  | _, [] => []
  | i, r :: rest => drawF (muF r) (varF sigma2 r) (w t i) :: drawsFrom sigma2 w t (i + 1) rest

/-- Column `t` of the `draws` matrix (`size=(n_teams, sims)`): every row's
simulated final score for trial `t`. -/
def drawsRow (df : List SimRow) (sigma2 : ℚ) (w : ℕ → ℕ → ℚ) (t : ℕ) : List F :=
  drawsFrom sigma2 w t 0 df

/-- `winners = np.argmax(draws, axis=0)`: the winning row index of each of
the `sims` trials. -/
def winnersL (df : List SimRow) (sigma2 : ℚ) (w : ℕ → ℕ → ℚ) (sims : ℕ) : List ℕ :=
  (List.range sims).map (fun t => argmaxF (drawsRow df sigma2 w t))

/-- `win_probs = np.bincount(winners, minlength=n_teams) / sims`, at row
`i`: the tally of trials row `i` won, divided by `sims`. -/
def winProbQ (df : List SimRow) (sigma2 : ℚ) (w : ℕ → ℕ → ℚ) (sims : ℕ) (i : ℕ) : ℚ :=
  ((winnersL df sigma2 w sims).count i : ℚ) / (sims : ℚ)

/-- One row of the returned frame: the original columns of `df.copy()` plus
the three added columns `ProjFinal`, `StdDev`, `WinProb`. -/
structure OutRow where
  teamName : Str
  fpts : F
  pmr : F
  projFinal : F
  stdDev : Option ℝ
  winProb : ℚ

/-- Assembly of the output rows of `dfs_win_probs`, with `i` the index of
the first row of `l` in the whole frame `df`. -/
noncomputable def outFrom (df : List SimRow) (sigma2 : ℚ) (w : ℕ → ℕ → ℚ) (sims : ℕ) :
    ℕ → List SimRow → List OutRow
  | _, [] => []
  | i, r :: rest =>
    { teamName := r.teamName, fpts := r.fpts, pmr := r.pmr,
      projFinal := muF r, stdDev := sqrtF (varF sigma2 r),
      winProb := winProbQ df sigma2 w sims i } :: outFrom df sigma2 w sims (i + 1) rest

/-- `calculate_win_probability.dfs_win_probs(df, sigma2, sims)`: the input
frame with the columns `ProjFinal = mu`, `StdDev = sqrt(var)` and
`WinProb = bincount(argmax draws) / sims` added.  `w` stands for the scaled
normal noise drawn from `np.random.default_rng(random_state)`. -/
noncomputable def dfs_win_probs (df : List SimRow) (sigma2 : ℚ) (w : ℕ → ℕ → ℚ) (sims : ℕ) :
    List OutRow :=
  outFrom df sigma2 w sims 0 df

example : argmaxF [some 10, some 105] = 1 := by decide
example : argmaxF [some 10, none, some 105] = 1 := by decide
example : argmaxF [none, some 10] = 0 := by decide
example : argmaxF [some 7, some 7] = 0 := by decide

/-! ## `data_downloader/scraper.scrape_standings`

The live view is modelled as `view : ℕ → List MountedRow`: the mounted rows
the locator reads after `k` scroll/settle cycles.  The Playwright reads
`row.get_attribute('aria-label')`, `inner_text` of the rank and points
cells followed by `int(...)`/`float(...)` are modelled as the row's data
(`ariaLabel`, `rank`, `points`). -/

/-- One mounted row as the collector reads it. -/
structure MountedRow where
  ariaLabel : Option Str
  rank : ℤ
  points : ℚ
  deriving DecidableEq

/-- One collected standings entry (`{username, rank, points}`). -/
structure Entry where
  username : Str
  rank : ℤ
  points : ℚ
  deriving DecidableEq

/-- The label-prefix the collector matches, `"view standings for"`. -/
def vsfPat : Str := "view standings for".toList

/-- The username a row's aria-label resolves to: skip (`none`) when the
label is missing, empty (falsy) or does not contain the pattern, else
`aria_label.replace("view standings for", "").strip()`. -/
def userOf (r : MountedRow) : Option Str :=
  match r.ariaLabel with
  | none => none
  | some lab =>
    if lab = [] ∨ ¬pyContains lab vsfPat then none
    else some (pyStrip (pyReplace lab vsfPat []))

/-- The inner `for i in range(current_rows_count)` pass: append each row
whose username is new, remembering it in the seen-set.  Returns the updated
seen-set and accumulated standings. -/
def collectRows (seen : List Str) (acc : List Entry) : List MountedRow → List Str × List Entry
  | [] => (seen, acc)
  | r :: rest =>
    match userOf r with
    | none => collectRows seen acc rest
    | some u =>
      if u ∈ seen then collectRows seen acc rest
      else collectRows (u :: seen) (acc ++ [{ username := u, rank := r.rank, points := r.points }]) rest

/-- The `while True` scroll loop of `scrape_standings`, with explicit fuel:
read the mounted rows, collect the new ones, stop when the result size
matches the previous iteration's (`previous_results_count`, initially -1),
else scroll (to view `k+1`) and repeat.  `none` means the fuel ran out with
the loop still running: the source has no iteration bound and no timeout,
so `none` at every fuel models non-termination. -/
def scrapeLoop (view : ℕ → List MountedRow) :
    ℕ → ℕ → List Str → List Entry → ℤ → Option (List Entry)
  | 0, _, _, _, _ => none
  | fuel + 1, k, seen, acc, prev =>
    let sa := collectRows seen acc (view k)
    if (sa.2.length : ℤ) = prev then some sa.2
    else scrapeLoop view fuel (k + 1) sa.1 sa.2 (sa.2.length : ℤ)

/-- `data_downloader/scraper.scrape_standings(page)`. -/
def scrape_standings (view : ℕ → List MountedRow) (fuel : ℕ) : Option (List Entry) :=
  scrapeLoop view fuel 0 [] [] (-1)

/-- The entries the mounted rows of one read would yield, in order,
before dedup. -/
def validEntries (rows : List MountedRow) : List Entry :=
  rows.filterMap (fun r =>
    (userOf r).map (fun u => { username := u, rank := r.rank, points := r.points }))

/-- All candidate entries of the first `k` reads (views `0, …, k-1`),
concatenated in read order. -/
def readStream (view : ℕ → List MountedRow) (k : ℕ) : List Entry :=
  ((List.range k).map (fun i => validEntries (view i))).flatten

/-- First-seen dedup by username, given an initial seen-set. -/
def dedupFirst : List Entry → List Str → List Entry
  | [], _ => []
  | e :: es, seen =>
    if e.username ∈ seen then dedupFirst es seen
    else e :: dedupFirst es (e.username :: seen)

example :
    scrape_standings (fun _ => [{ ariaLabel := some "view standings for ann".toList,
                                  rank := 1, points := 10 },
                                { ariaLabel := some "view standings for ann".toList,
                                  rank := 2, points := 3 }]) 5 =
      some [{ username := "ann".toList, rank := 1, points := 10 }] := by decide

/-! ## `scraper.DraftKingsScraper.initialize` and `scheduler.scheduler`

The target config file `example_contests.txt` is `none` when missing
(`FileNotFoundError`), else its list of lines.  `initialize` reads
`f.readline().strip()` — the first line, stripped — and fails on a missing
file or a blank result; `scheduler` starts its poll loop only when
`initialize` returned `True`. -/

/-- The target URL `initialize` resolves, `none` for the failure paths
(`return False`): missing file, or empty/blank first line. -/
def initTargetUrl (config : Option (List Str)) : Option Str :=
  match config with
  | none => none
  | some lines =>
    let url := pyStrip (lines.headD [])
    if url = [] then none else some url

/-- `scheduler.scheduler`: `if not await scraper.initialize(): return` — the
periodic poll loop is entered iff initialization succeeded. -/
def schedulerStartsLoop (config : Option (List Str)) : Bool :=
  (initTargetUrl config).isSome

/-- The first non-empty line of the config, stripped (what the spec says
the URL is taken from). -/
def firstNonEmptyLine (lines : List Str) : Option Str :=
  (lines.map pyStrip).find? (fun l => ¬l.isEmpty)

example : initTargetUrl (some [" https://x ".toList, "y".toList]) = some "https://x".toList := by
  decide
example : initTargetUrl (some ["   ".toList, "https://x".toList]) = none := by decide
example : initTargetUrl none = none := by decide

/-! ## Concrete inputs used by the claims -/

/-- The spec's worked example: entries `(team, fpts, pmr)` =
`[("A",80,60), ("B",75,90), ("C",36,360)]`. -/
def specExample : List SimRow :=
  [{ teamName := "A".toList, fpts := some 80, pmr := some 60 },
   { teamName := "B".toList, fpts := some 75, pmr := some 90 },
   { teamName := "C".toList, fpts := some 36, pmr := some 360 }]

/-- A snapshot whose first row is missing its FPTS value (NaN). -/
def dfNanRow : List SimRow :=
  [{ teamName := "A".toList, fpts := none, pmr := some 0 },
   { teamName := "B".toList, fpts := some 10, pmr := some 0 }]

/-- `dfNanRow` restricted to its rows having both fpts and pmr. -/
def dfNanRowValid : List SimRow :=
  [{ teamName := "B".toList, fpts := some 10, pmr := some 0 }]

/-- Zero noise (any fixed rng stream works for the NaN claims: NaN draws do
not depend on the noise). -/
def wZero : ℕ → ℕ → ℚ := fun _ _ => 0

/-- A snapshot mixing a finished team (pmr 0) with a live one (pmr 4). -/
def dfMixed : List SimRow :=
  [{ teamName := "A".toList, fpts := some 10, pmr := some 0 },
   { teamName := "B".toList, fpts := some 5, pmr := some 4 }]

/-- A noise stream under which team B beats A in trial 0 and loses trial 1
(a possible draw from any normal rng, taken as the observed stream). -/
def wMixed : ℕ → ℕ → ℚ := fun t i =>
  if i = 1 then (if t = 0 then 100 else -100) else 0

/-- Two mounted rows resolving to the same team name (virtualized lists
recycle DOM rows, so a captured page can hold duplicates). -/
def rawAnn : RawRow :=
  { rankText := some "1".toList, teamText := some "ann".toList,
    pmrText := none, fptsText := none }

/-- Raw rows where the first team has no rank cell and the second does. -/
def rsMixedRank : List RawRow :=
  [{ rankText := none, teamText := some "ann".toList, pmrText := none, fptsText := none },
   { rankText := some "1".toList, teamText := some "bob".toList,
     pmrText := none, fptsText := none }]

/-- A fixed two-row view (the same rows at every scroll position) used to
exercise the collector. -/
def viewAnn : ℕ → List MountedRow := fun _ =>
  [{ ariaLabel := some "view standings for ann".toList, rank := 1, points := 10 },
   { ariaLabel := some "view standings for ann".toList, rank := 2, points := 3 }]

/-- Usernames of the adversarial ever-growing view: `'a'` repeated `n+1`
times (all distinct). -/
def unameG (n : ℕ) : Str := List.replicate (n + 1) 'a'

/-- The aria-label carrying `unameG n`. -/
def labelG (n : ℕ) : Str := vsfPat ++ ' ' :: unameG n

/-- The one row mounted after `n` scrolls of the adversarial view. -/
def rowGrow (n : ℕ) : MountedRow :=
  { ariaLabel := some (labelG n), rank := 0, points := 0 }

/-- A view on which the result size grows by one at every scroll cycle and
never stabilizes: the virtualized list keeps recycling in a fresh row. -/
def viewGrow : ℕ → List MountedRow := fun k => [rowGrow k]

/-- Seen-set of the adversarial run after `k` iterations. -/
def seenG (k : ℕ) : List Str := ((List.range k).map unameG).reverse

/-- Accumulated standings of the adversarial run after `k` iterations. -/
def accG (k : ℕ) : List Entry :=
  (List.range k).map (fun j => { username := unameG j, rank := 0, points := 0 })

/-! ## Helper lemmas: the engine's output columns -/

theorem length_drawsFrom (sigma2 : ℚ) (w : ℕ → ℕ → ℚ) (t : ℕ) :
    ∀ (i : ℕ) (l : List SimRow), (drawsFrom sigma2 w t i l).length = l.length := by
  intro i l
  induction l generalizing i with
  | nil => rfl
  | cons r rest ih => simp [drawsFrom, ih]

theorem outFrom_map_winProb (df : List SimRow) (sigma2 : ℚ) (w : ℕ → ℕ → ℚ) (sims : ℕ) :
    ∀ (l : List SimRow) (i : ℕ),
      (outFrom df sigma2 w sims i l).map (fun o => o.winProb) =
        (List.range' i l.length).map (winProbQ df sigma2 w sims) := by
  intro l
  induction l with
  | nil => intro i; rfl
  | cons r rest ih =>
    intro i
    simp only [outFrom, List.map_cons, List.length_cons, List.range'_succ, ih]

theorem outFrom_map_projFinal (df : List SimRow) (sigma2 : ℚ) (w : ℕ → ℕ → ℚ) (sims : ℕ) :
    ∀ (l : List SimRow) (i : ℕ),
      (outFrom df sigma2 w sims i l).map (fun o => o.projFinal) = l.map muF := by
  intro l
  induction l with
  | nil => intro i; rfl
  | cons r rest ih => intro i; simp only [outFrom, List.map_cons, ih]

theorem outFrom_map_stdDev (df : List SimRow) (sigma2 : ℚ) (w : ℕ → ℕ → ℚ) (sims : ℕ) :
    ∀ (l : List SimRow) (i : ℕ),
      (outFrom df sigma2 w sims i l).map (fun o => o.stdDev) =
        l.map (fun r => sqrtF (varF sigma2 r)) := by
  intro l
  induction l with
  | nil => intro i; rfl
  | cons r rest ih => intro i; simp only [outFrom, List.map_cons, ih]

theorem outFrom_map_orig (df : List SimRow) (sigma2 : ℚ) (w : ℕ → ℕ → ℚ) (sims : ℕ) :
    ∀ (l : List SimRow) (i : ℕ),
      (outFrom df sigma2 w sims i l).map (fun o => (o.teamName, o.fpts, o.pmr)) =
        l.map (fun r => (r.teamName, r.fpts, r.pmr)) := by
  intro l
  induction l with
  | nil => intro i; rfl
  | cons r rest ih => intro i; simp only [outFrom, List.map_cons, ih]

theorem length_outFrom (df : List SimRow) (sigma2 : ℚ) (w : ℕ → ℕ → ℚ) (sims : ℕ) :
    ∀ (l : List SimRow) (i : ℕ), (outFrom df sigma2 w sims i l).length = l.length := by
  intro l
  induction l with
  | nil => intro i; rfl
  | cons r rest ih => intro i; simp [outFrom, ih]

/-! ## Helper lemmas: `argmaxF` -/

theorem argmaxF_lt_length : ∀ l : List F, l ≠ [] → argmaxF l < l.length := by
  intro l hl
  match l with
  | x :: xs =>
    rw [argmaxF]
    by_cases hx : x.isNone
    · simp [hx]
    · simp only [hx, if_false]
      cases hg : xs.get? (argmaxF xs) with
      | none => simp
      | some v =>
        have hlt : argmaxF xs < xs.length := List.get?_eq_some.mp hg |>.1
        cases v with
        | none => simpa using Nat.succ_lt_succ hlt
        | some q =>
          by_cases hc : x.getD 0 < q
          · simpa [hc] using Nat.succ_lt_succ hlt
          · simp [hc]

theorem argmaxF_singleton (x : F) : argmaxF [x] = 0 := by
  cases x <;> simp [argmaxF]

/-! ## Helper lemmas: sums of counts -/

theorem listSum_map_range (f : ℕ → ℚ) : ∀ n : ℕ,
    ((List.range n).map f).sum = ∑ i in Finset.range n, f i := by
  intro n
  induction n with
  | zero => rfl
  | succ m ih =>
    rw [List.range_succ, List.map_append, List.sum_append, Finset.sum_range_succ, ih]
    simp

theorem sum_range_count (l : List ℕ) (n : ℕ) (h : ∀ x ∈ l, x < n) :
    ∑ i in Finset.range n, l.count i = l.length := by
  induction l with
  | nil => simp
  | cons a t ih =>
    have ha : a ∈ Finset.range n := Finset.mem_range.mpr (h a (List.mem_cons_self a t))
    have ht : ∀ x ∈ t, x < n := fun x hx => h x (List.mem_cons_of_mem a hx)
    calc ∑ i in Finset.range n, (a :: t).count i
        = ∑ i in Finset.range n, (t.count i + if i = a then 1 else 0) := by
          refine Finset.sum_congr rfl (fun i _ => ?_)
          by_cases hia : i = a <;> simp [List.count_cons, beq_iff_eq, hia]
      _ = (∑ i in Finset.range n, t.count i) + ∑ i in Finset.range n, (if i = a then 1 else 0) :=
          Finset.sum_add_distrib
      _ = t.length + 1 := by rw [ih ht, Finset.sum_ite_eq' (Finset.range n) a (fun _ => 1)]
                             simp [ha]
      _ = (a :: t).length := by simp

/-! ## C2: the win probabilities of one snapshot sum to 1 -/

/-- C2.  For every snapshot with `N > 0` entries having valid fpts and pmr
and every `sims > 0`, the `WinProb` column of `dfs_win_probs` sums to
exactly 1: every trial's `argmax` yields exactly one winner index below
`n_teams`, so the bincount tallies partition `sims`. -/
theorem dfs_win_probs_winprob_sum_one (df : List SimRow) (sigma2 : ℚ) (w : ℕ → ℕ → ℚ)
    (sims : ℕ) (hne : df ≠ []) (hsims : 0 < sims)
    (hvalid : ∀ r ∈ df, r.fpts.isSome ∧ r.pmr.isSome) :
    ((dfs_win_probs df sigma2 w sims).map (fun o => o.winProb)).sum = 1 := by
  rw [dfs_win_probs, outFrom_map_winProb df sigma2 w sims df 0, ← List.range_eq_range',
    listSum_map_range]
  have hlt : ∀ x ∈ winnersL df sigma2 w sims, x < df.length := by
    intro x hx
    rw [winnersL] at hx
    obtain ⟨t, _, rfl⟩ := List.mem_map.mp hx
    have hlen : (drawsRow df sigma2 w t).length = df.length := length_drawsFrom _ _ _ 0 df
    have hne2 : drawsRow df sigma2 w t ≠ [] := by
      intro hnil
      rw [hnil] at hlen
      exact hne (List.length_eq_zero.mp hlen.symm)
    calc argmaxF (drawsRow df sigma2 w t) < (drawsRow df sigma2 w t).length :=
          argmaxF_lt_length _ hne2
      _ = df.length := hlen
  have hlenw : (winnersL df sigma2 w sims).length = sims := by simp [winnersL]
  calc ∑ i in Finset.range df.length, winProbQ df sigma2 w sims i
      = (∑ i in Finset.range df.length, ((winnersL df sigma2 w sims).count i : ℚ)) /
          (sims : ℚ) := by
        simp only [winProbQ]
        rw [← Finset.sum_div]
    _ = ((winnersL df sigma2 w sims).length : ℚ) / (sims : ℚ) := by
        rw [← Nat.cast_sum, sum_range_count _ _ hlt]
    _ = 1 := by
        rw [hlenw]
        exact div_self (by exact_mod_cast hsims.ne')

/-- Witness for C2 at a concrete one-team snapshot. -/
theorem dfs_win_probs_winprob_sum_one_wit :
    ([⟨"a".toList, some 1, some 0⟩] : List SimRow) ≠ [] ∧ 0 < 1 ∧
      (∀ r ∈ ([⟨"a".toList, some 1, some 0⟩] : List SimRow), r.fpts.isSome ∧ r.pmr.isSome) ∧
      ((dfs_win_probs [⟨"a".toList, some 1, some 0⟩] 1 (fun _ _ => 0) 1).map
        (fun o => o.winProb)).sum = 1 :=
  ⟨by decide, by decide, by decide,
    dfs_win_probs_winprob_sum_one [⟨"a".toList, some 1, some 0⟩] 1 (fun _ _ => 0) 1
      (by decide) (by decide) (by decide)⟩

/-! ## C10: the engine adds three columns and leaves the original ones alone -/

/-- C10.  `dfs_win_probs` works on `df.copy()`: in the returned frame the
original columns `Team Name`, `FPTS`, `PMR` hold the input values in the
input row order, the row count is unchanged, and exactly the three columns
`ProjFinal`, `StdDev`, `WinProb` are added, with the stated contents.
(The Lean embedding is pure, so the input frame itself cannot change; the
content of the claim is that the output preserves the original columns.) -/
theorem dfs_win_probs_frame_effect (df : List SimRow) (sigma2 : ℚ) (w : ℕ → ℕ → ℚ)
    (sims : ℕ) :
    (dfs_win_probs df sigma2 w sims).map (fun o => (o.teamName, o.fpts, o.pmr)) =
      df.map (fun r => (r.teamName, r.fpts, r.pmr)) ∧
    (dfs_win_probs df sigma2 w sims).length = df.length ∧
    (dfs_win_probs df sigma2 w sims).map (fun o => o.projFinal) = df.map muF ∧
    (dfs_win_probs df sigma2 w sims).map (fun o => o.stdDev) =
      df.map (fun r => sqrtF (varF sigma2 r)) ∧
    (dfs_win_probs df sigma2 w sims).map (fun o => o.winProb) =
      (List.range df.length).map (winProbQ df sigma2 w sims) :=
  ⟨outFrom_map_orig df sigma2 w sims df 0, length_outFrom df sigma2 w sims df 0,
    outFrom_map_projFinal df sigma2 w sims df 0, outFrom_map_stdDev df sigma2 w sims df 0,
    by rw [dfs_win_probs, outFrom_map_winProb df sigma2 w sims df 0, ← List.range_eq_range']⟩

/-! ## C6: target-config contract of `initialize` and the scheduler -/

/-- C6.  `initialize` resolves the contest URL from the config file: it
fails exactly on a missing file or a blank (whitespace-only or empty) first
line; on success the URL is the stripped first line — which, the first line
being non-blank, is also the first non-empty line of the file — and the
scheduler enters its poll loop; on failure the scheduler returns before the
loop (`if not await scraper.initialize(): return`). -/
theorem initTargetUrl_contract (config : Option (List Str)) :
    (initTargetUrl config = none ↔
      config = none ∨ ∃ lines, config = some lines ∧ pyStrip (lines.headD []) = []) ∧
    (∀ u, initTargetUrl config = some u →
      ∃ lines, config = some lines ∧ u = pyStrip (lines.headD []) ∧
        firstNonEmptyLine lines = some u ∧ schedulerStartsLoop config = true) ∧
    (initTargetUrl config = none → schedulerStartsLoop config = false) := by
  refine ⟨?_, ?_, ?_⟩
  · cases config with
    | none => simp [initTargetUrl]
    | some lines =>
      by_cases hz : pyStrip (lines.headD []) = []
      · simp [initTargetUrl, hz]
      · simp [initTargetUrl, hz]
  · intro u hu
    cases config with
    | none => simp [initTargetUrl] at hu
    | some lines =>
      by_cases hz : pyStrip (lines.headD []) = []
      · simp only [initTargetUrl] at hu
        rw [if_pos hz] at hu
        exact Option.noConfusion hu
      · simp only [initTargetUrl] at hu
        rw [if_neg hz] at hu
        replace hu := Option.some.inj hu
        subst hu
        refine ⟨lines, rfl, rfl, ?_, ?_⟩
        · cases lines with
          | nil => exact absurd rfl hz
          | cons l rest =>
            have hne : (pyStrip l).isEmpty = false := by
              cases h : pyStrip l with
              | nil => exact absurd h hz
              | cons c cs => rfl
            simp only [firstNonEmptyLine, List.map_cons, List.headD_cons]
            rw [List.find?_cons_of_pos]
            simp [hne]
        · simp only [schedulerStartsLoop, initTargetUrl]
          rw [if_neg hz]
          rfl
  · intro hn
    simp [schedulerStartsLoop, hn]

/-- Witness for C6: a config whose first line is blank fails and keeps the
poll loop from starting, and a good config resolves its URL. -/
theorem initTargetUrl_contract_wit :
    initTargetUrl (some ["  ".toList, "https://dk.example/contest".toList]) = none ∧
      schedulerStartsLoop (some ["  ".toList, "https://dk.example/contest".toList]) = false ∧
      initTargetUrl none = none ∧ schedulerStartsLoop none = false ∧
      (∃ lines, (some ["https://dk.example/contest".toList] : Option (List Str)) = some lines ∧
        "https://dk.example/contest".toList = pyStrip (lines.headD []) ∧
        firstNonEmptyLine lines = some "https://dk.example/contest".toList ∧
        schedulerStartsLoop (some ["https://dk.example/contest".toList]) = true) :=
  ⟨by decide,
    (initTargetUrl_contract (some ["  ".toList, "https://dk.example/contest".toList])).2.2
      (by decide),
    by decide,
    (initTargetUrl_contract none).2.2 (by decide),
    (initTargetUrl_contract (some ["https://dk.example/contest".toList])).2.1
      "https://dk.example/contest".toList (by decide)⟩

/-! ## C9: partially unparsable rows are kept with null fields -/

/-- C9.  A row is dropped iff every field (rank, team name, pmr, fpts)
resolved to `None`; a kept row carries exactly the resolved values, with
`none` for each unresolved field.  In particular a row whose points cell
did not resolve is kept with `fpts = none` as long as another field
resolved, and a fully unresolved row is dropped. -/
theorem parseRow_partial_rows_kept :
    (∀ r : RawRow, parseRow r = none ↔
      toIntPy r.rankText = none ∧ r.teamText = none ∧ toIntPy r.pmrText = none ∧
        toFloatPy (fptsTextOf r) = none) ∧
    (∀ (r : RawRow) (row : Row), parseRow r = some row →
      row.rank = toIntPy r.rankText ∧ row.teamName = r.teamText ∧
        row.pmr = toIntPy r.pmrText ∧ row.fpts = toFloatPy (fptsTextOf r)) ∧
    parseRow { rankText := some "3".toList, teamText := some "ann".toList,
               pmrText := some "12".toList, fptsText := none } =
      some { rank := some 3, teamName := some "ann".toList, pmr := some 12, fpts := none } ∧
    parseRow { rankText := none, teamText := none, pmrText := none, fptsText := none } =
      none := by
  refine ⟨fun r => ?_, fun r row h => ?_, by decide, by decide⟩
  · rw [parseRow]
    split
    next hcond =>
      constructor
      · intro h; exact absurd h (by simp)
      · rintro ⟨h1, h2, h3, h4⟩
        rw [h1, h2, h3, h4] at hcond
        simp at hcond
    next hcond =>
      push_neg at hcond
      obtain ⟨h1, h2, h3, h4⟩ := hcond
      exact iff_of_true rfl
        ⟨Option.not_isSome_iff_eq_none.mp (by simpa using h1),
         Option.not_isSome_iff_eq_none.mp (by simpa using h2),
         Option.not_isSome_iff_eq_none.mp (by simpa using h3),
         Option.not_isSome_iff_eq_none.mp (by simpa using h4)⟩
  · rw [parseRow] at h
    split at h
    next => cases h; exact ⟨rfl, rfl, rfl, rfl⟩
    next => cases h

/-! ## Helper lemmas: mean and standard-deviation columns on valid rows -/

theorem muF_some (r : SimRow) (f p : ℚ) (hf : r.fpts = some f) (hp : r.pmr = some p) :
    muF r = some (f + p / 4) := by
  simp [muF, addF, divC, hf, hp]

theorem sqrtF_varF_some (sigma2 p : ℚ) (r : SimRow) (hp : r.pmr = some p)
    (h2 : 0 ≤ sigma2) (h3 : 0 ≤ p) :
    sqrtF (varF sigma2 r) = some (Real.sqrt ((sigma2 : ℝ) * (p : ℝ))) := by
  have hv : ¬(sigma2 * p < 0) := not_lt.mpr (mul_nonneg h2 h3)
  simp only [varF, mulC, hp, Option.map_some', sqrtF, hv, if_false]
  rw [show ((sigma2 * p : ℚ) : ℝ) = (sigma2 : ℝ) * (p : ℝ) by push_cast; ring]

/-! ## C1: projected final and standard deviation per team -/

/-- C1.  On rows with numeric fpts and pmr (and nonnegative `sigma2` and
pmr, the model's regime), the engine returns
`ProjFinal = fpts + pmr/4` and `StdDev = sqrt(sigma2 * pmr)`; on the spec's
example with `sigma2 = 0.5` the columns are `[95, 97.5, 126]` and
`[√30, √45, √180] ≈ [5.48, 6.71, 13.42]` (each within 0.01). -/
theorem dfs_win_probs_mean_std :
    (∀ (df : List SimRow) (sigma2 : ℚ) (w : ℕ → ℕ → ℚ) (sims i : ℕ) (r : SimRow) (f p : ℚ),
      df.get? i = some r → r.fpts = some f → r.pmr = some p → 0 ≤ sigma2 → 0 ≤ p →
      ((dfs_win_probs df sigma2 w sims).map (fun o => o.projFinal)).get? i =
          some (some (f + p / 4)) ∧
        ((dfs_win_probs df sigma2 w sims).map (fun o => o.stdDev)).get? i =
          some (some (Real.sqrt ((sigma2 : ℝ) * (p : ℝ))))) ∧
    (∀ (w : ℕ → ℕ → ℚ) (sims : ℕ),
      (dfs_win_probs specExample (1/2) w sims).map (fun o => o.projFinal) =
        [some 95, some (195/2), some 126] ∧
      (dfs_win_probs specExample (1/2) w sims).map (fun o => o.stdDev) =
        [some (Real.sqrt 30), some (Real.sqrt 45), some (Real.sqrt 180)]) ∧
    (|Real.sqrt 30 - 5.48| < 0.01 ∧ |Real.sqrt 45 - 6.71| < 0.01 ∧
      |Real.sqrt 180 - 13.42| < 0.01) := by
  refine ⟨?_, ?_, ?_, ?_, ?_⟩
  · intro df sigma2 w sims i r f p hget hf hp h2 h3
    constructor
    · rw [dfs_win_probs, outFrom_map_projFinal df sigma2 w sims df 0, List.get?_map, hget,
        Option.map_some', muF_some r f p hf hp]
    · rw [dfs_win_probs, outFrom_map_stdDev df sigma2 w sims df 0, List.get?_map, hget,
        Option.map_some', sqrtF_varF_some sigma2 p r hp h2 h3]
  · intro w sims
    constructor
    · rw [dfs_win_probs, outFrom_map_projFinal specExample (1/2) w sims specExample 0]
      simp only [specExample, List.map_cons, List.map_nil, muF, divC, Option.map_some', addF]
      norm_num
    · rw [dfs_win_probs, outFrom_map_stdDev specExample (1/2) w sims specExample 0]
      simp only [specExample, List.map_cons, List.map_nil,
        sqrtF_varF_some (1/2) 60 { teamName := "A".toList, fpts := some 80, pmr := some 60 }
          rfl (by norm_num) (by norm_num),
        sqrtF_varF_some (1/2) 90 { teamName := "B".toList, fpts := some 75, pmr := some 90 }
          rfl (by norm_num) (by norm_num),
        sqrtF_varF_some (1/2) 360 { teamName := "C".toList, fpts := some 36, pmr := some 360 }
          rfl (by norm_num) (by norm_num)]
      norm_num
  · rw [abs_sub_lt_iff]
    constructor
    · have : Real.sqrt 30 < 5.49 := by
        rw [Real.sqrt_lt' (by norm_num)]
        norm_num
      linarith
    · have : (5.47 : ℝ) < Real.sqrt 30 := by
        rw [show (5.47 : ℝ) = √(5.47 ^ 2) by rw [Real.sqrt_sq (by norm_num)]]
        exact Real.sqrt_lt_sqrt (by positivity) (by norm_num)
      linarith
  · rw [abs_sub_lt_iff]
    constructor
    · have : Real.sqrt 45 < 6.72 := by
        rw [Real.sqrt_lt' (by norm_num)]
        norm_num
      linarith
    · have : (6.70 : ℝ) < Real.sqrt 45 := by
        rw [show (6.70 : ℝ) = √(6.70 ^ 2) by rw [Real.sqrt_sq (by norm_num)]]
        exact Real.sqrt_lt_sqrt (by positivity) (by norm_num)
      linarith
  · rw [abs_sub_lt_iff]
    constructor
    · have : Real.sqrt 180 < 13.43 := by
        rw [Real.sqrt_lt' (by norm_num)]
        norm_num
      linarith
    · have : (13.41 : ℝ) < Real.sqrt 180 := by
        rw [show (13.41 : ℝ) = √(13.41 ^ 2) by rw [Real.sqrt_sq (by norm_num)]]
        exact Real.sqrt_lt_sqrt (by positivity) (by norm_num)
      linarith

/-! ## Helper lemmas: degenerate (zero-variance) simulation -/

theorem argmaxF_cons (x : F) (xs : List F) :
    argmaxF (x :: xs) =
      if x.isNone then 0
      else
        match xs.get? (argmaxF xs) with
        | none => 0
        | some none => argmaxF xs + 1
        | some (some v) => if x.getD 0 < v then argmaxF xs + 1 else 0 := rfl

theorem argmaxF_strict_max : ∀ (l : List F) (i : ℕ) (xv : ℚ),
    l.get? i = some (some xv) →
    (∀ j v, j ≠ i → l.get? j = some v → ∃ u, v = some u ∧ u < xv) →
    argmaxF l = i := by
  intro l
  induction l with
  | nil => intro i xv hget _; simp at hget
  | cons x xs ih =>
    intro i xv hget hother
    cases i with
    | zero =>
      have hx : x = some xv := by simpa using hget
      rw [argmaxF_cons]
      subst hx
      simp only [Option.isNone_some, Bool.false_eq_true, if_false]
      cases hg : xs.get? (argmaxF xs) with
      | none => rfl
      | some v =>
        obtain ⟨u, rfl, hu⟩ := hother (argmaxF xs + 1) v (Nat.succ_ne_zero _) (by simpa using hg)
        simp [not_lt.mpr (le_of_lt hu)]
    | succ i' =>
      have hget' : xs.get? i' = some (some xv) := by simpa using hget
      obtain ⟨u₀, hx, hu₀⟩ := hother 0 x (by simp) rfl
      have hrec : argmaxF xs = i' := by
        refine ih i' xv hget' (fun j v hj hv => ?_)
        exact hother (j + 1) v (by simpa using hj) (by simpa using hv)
      rw [argmaxF_cons, hrec, hget', hx]
      simp [hu₀]

theorem drawF_pmr_zero (sigma2 : ℚ) (r : SimRow) (wv : ℚ) (hp : r.pmr = some 0) :
    drawF (muF r) (varF sigma2 r) wv = muF r := by
  have hv : varF sigma2 r = some 0 := by simp [varF, mulC, hp]
  rw [hv]
  cases hmu : muF r with
  | none => rfl
  | some m => simp [drawF]

theorem drawsFrom_pmr_zero (sigma2 : ℚ) (w : ℕ → ℕ → ℚ) (t : ℕ) :
    ∀ (l : List SimRow) (i : ℕ), (∀ r ∈ l, r.pmr = some 0) →
      drawsFrom sigma2 w t i l = l.map muF := by
  intro l
  induction l with
  | nil => intro i _; rfl
  | cons r rest ih =>
    intro i h
    rw [drawsFrom, drawF_pmr_zero sigma2 r _ (h r (List.mem_cons_self r rest)),
      ih (i + 1) (fun r' hr' => h r' (List.mem_cons_of_mem r hr')), List.map_cons]

theorem winnersL_pmr_zero (df : List SimRow) (sigma2 : ℚ) (w : ℕ → ℕ → ℚ) (sims : ℕ)
    (h : ∀ r ∈ df, r.pmr = some 0) :
    winnersL df sigma2 w sims = List.replicate sims (argmaxF (df.map muF)) := by
  rw [winnersL]
  calc (List.range sims).map (fun t => argmaxF (drawsRow df sigma2 w t))
      = (List.range sims).map (fun _ => argmaxF (df.map muF)) :=
        List.map_congr_left (fun t _ => by rw [drawsRow, drawsFrom_pmr_zero sigma2 w t df 0 h])
    _ = List.replicate sims (argmaxF (df.map muF)) := by
        rw [List.map_const', List.length_range]

theorem winProbQ_replicate (df : List SimRow) (sigma2 : ℚ) (w : ℕ → ℕ → ℚ) (sims : ℕ)
    (k : ℕ) (hk : winnersL df sigma2 w sims = List.replicate sims k) (hs : 0 < sims) :
    ∀ i, winProbQ df sigma2 w sims i = if i = k then 1 else 0 := by
  intro i
  rw [winProbQ, hk, List.count_replicate]
  by_cases hik : i = k
  · simp only [hik, beq_self_eq_true, if_true]
    exact div_self (by exact_mod_cast hs.ne')
  · have : (k == i) = false := by simpa using fun h => hik h.symm
    simp [this, hik]

theorem winProb_column_get (df : List SimRow) (sigma2 : ℚ) (w : ℕ → ℕ → ℚ) (sims : ℕ)
    (i : ℕ) (hi : i < df.length) :
    ((dfs_win_probs df sigma2 w sims).map (fun o => o.winProb)).get? i =
      some (winProbQ df sigma2 w sims i) := by
  rw [dfs_win_probs, outFrom_map_winProb df sigma2 w sims df 0, ← List.range_eq_range',
    List.get?_map, List.get?_range hi, Option.map_some']

/-! ## C8: zero-pmr rows — what actually holds -/

/-- C8, amended.  An entry with `pmr = 0` always gets `StdDev = 0`.  The
win-probability half of the claim holds for degenerate *snapshots*, not per
entry: when every entry has `pmr = 0` each winProbability is exactly 0 or 1,
and the team with strictly greatest fpts (all fpts present) wins with
probability 1; a single-team snapshot gives that team winProbability 1.
(In mixed snapshots a `pmr = 0` entry can get a fractional value —
see the counterexample.) -/
theorem dfs_win_probs_pmr_zero_degenerate :
    (∀ (df : List SimRow) (sigma2 : ℚ) (w : ℕ → ℕ → ℚ) (sims i : ℕ) (r : SimRow),
      df.get? i = some r → r.pmr = some 0 →
      ((dfs_win_probs df sigma2 w sims).map (fun o => o.stdDev)).get? i =
        some (some (0 : ℝ))) ∧
    (∀ (df : List SimRow) (sigma2 : ℚ) (w : ℕ → ℕ → ℚ) (sims i : ℕ),
      (∀ r ∈ df, r.pmr = some 0) → 0 < sims → i < df.length →
      ((dfs_win_probs df sigma2 w sims).map (fun o => o.winProb)).get? i = some 0 ∨
        ((dfs_win_probs df sigma2 w sims).map (fun o => o.winProb)).get? i = some 1) ∧
    (∀ (df : List SimRow) (sigma2 : ℚ) (w : ℕ → ℕ → ℚ) (sims i : ℕ) (r : SimRow) (f : ℚ),
      (∀ r' ∈ df, r'.pmr = some 0) → 0 < sims →
      df.get? i = some r → r.fpts = some f →
      (∀ j r' f', j ≠ i → df.get? j = some r' → r'.fpts = some f' → f' < f) →
      (∀ r' ∈ df, r'.fpts.isSome) →
      ((dfs_win_probs df sigma2 w sims).map (fun o => o.winProb)).get? i = some 1) ∧
    (∀ (r : SimRow) (sigma2 : ℚ) (w : ℕ → ℕ → ℚ) (sims : ℕ), 0 < sims →
      (dfs_win_probs [r] sigma2 w sims).map (fun o => o.winProb) = [1]) := by
  refine ⟨?_, ?_, ?_, ?_⟩
  · intro df sigma2 w sims i r hget hp
    rw [dfs_win_probs, outFrom_map_stdDev df sigma2 w sims df 0, List.get?_map, hget,
      Option.map_some']
    have hv : varF sigma2 r = some 0 := by simp [varF, mulC, hp]
    rw [hv, sqrtF]
    norm_num
  · intro df sigma2 w sims i hz hs hi
    rw [winProb_column_get df sigma2 w sims i hi,
      winProbQ_replicate df sigma2 w sims (argmaxF (df.map muF))
        (winnersL_pmr_zero df sigma2 w sims hz) hs i]
    by_cases hik : i = argmaxF (df.map muF)
    · right; rw [if_pos hik]
    · left; rw [if_neg hik]
  · intro df sigma2 w sims i r f hz hs hget hf hmax hall
    have hi : i < df.length := (List.get?_eq_some.mp hget).1
    have hmu : muF r = some (f + 0 / 4) :=
      muF_some r f 0 hf (hz r (List.get?_mem hget))
    have hargmax : argmaxF (df.map muF) = i := by
      refine argmaxF_strict_max (df.map muF) i (f + 0 / 4) ?_ ?_
      · rw [List.get?_map, hget, Option.map_some', hmu]
      · intro j v hj hv
        rw [List.get?_map] at hv
        cases hget' : df.get? j with
        | none => rw [hget'] at hv; cases hv
        | some r' =>
          rw [hget', Option.map_some'] at hv
          obtain ⟨f', hf'⟩ := Option.isSome_iff_exists.mp
            (hall r' (List.get?_mem hget'))
          have hmu' : muF r' = some (f' + 0 / 4) :=
            muF_some r' f' 0 hf' (hz r' (List.get?_mem hget'))
          have hv' : muF r' = v := Option.some.inj hv
          refine ⟨f' + 0 / 4, ?_, ?_⟩
          · rw [← hv', hmu']
          · have := hmax j r' f' hj hget' hf'
            linarith
    rw [winProb_column_get df sigma2 w sims i hi,
      winProbQ_replicate df sigma2 w sims (argmaxF (df.map muF))
        (winnersL_pmr_zero df sigma2 w sims hz) hs i, hargmax, if_pos rfl]
  · intro r sigma2 w sims hs
    have hw : winnersL [r] sigma2 w sims = List.replicate sims 0 := by
      rw [winnersL]
      calc (List.range sims).map (fun t => argmaxF (drawsRow [r] sigma2 w t))
          = (List.range sims).map (fun _ => 0) :=
            List.map_congr_left (fun t _ => by
              rw [drawsRow, drawsFrom, drawsFrom, argmaxF_singleton])
        _ = List.replicate sims 0 := by rw [List.map_const', List.length_range]
    rw [dfs_win_probs, outFrom_map_winProb [r] sigma2 w sims [r] 0]
    have : List.range' 0 ([r] : List SimRow).length = [0] := rfl
    rw [this, List.map_cons, List.map_nil,
      winProbQ_replicate [r] sigma2 w sims 0 hw hs 0, if_pos rfl]

/-- Witness for C8 (amended): all four parts at concrete snapshots. -/
theorem dfs_win_probs_pmr_zero_degenerate_wit :
    ((dfs_win_probs dfNanRowValid 1 wZero 3).map (fun o => o.stdDev)).get? 0 =
        some (some (0 : ℝ)) ∧
      (((dfs_win_probs dfNanRowValid 1 wZero 3).map (fun o => o.winProb)).get? 0 = some 0 ∨
        ((dfs_win_probs dfNanRowValid 1 wZero 3).map (fun o => o.winProb)).get? 0 = some 1) ∧
      ((dfs_win_probs dfNanRowValid 1 wZero 3).map (fun o => o.winProb)).get? 0 = some 1 ∧
      (dfs_win_probs dfNanRowValid 1 wZero 3).map (fun o => o.winProb) = [1] :=
  ⟨dfs_win_probs_pmr_zero_degenerate.1 dfNanRowValid 1 wZero 3 0
      { teamName := "B".toList, fpts := some 10, pmr := some 0 } (by decide) (by decide),
    dfs_win_probs_pmr_zero_degenerate.2.1 dfNanRowValid 1 wZero 3 0 (by decide) (by decide)
      (by decide),
    dfs_win_probs_pmr_zero_degenerate.2.2.1 dfNanRowValid 1 wZero 3 0
      { teamName := "B".toList, fpts := some 10, pmr := some 0 } 10 (by decide) (by decide)
      (by decide) (by decide)
      (by intro j r' f' hj hget' hf'
          have hlen : j < dfNanRowValid.length := (List.get?_eq_some.mp hget').1
          have hj0 : j = 0 := Nat.lt_one_iff.mp (by simpa [dfNanRowValid] using hlen)
          exact absurd hj0 hj)
      (by decide),
    dfs_win_probs_pmr_zero_degenerate.2.2.2
      { teamName := "B".toList, fpts := some 10, pmr := some 0 } 1 wZero 3 (by decide)⟩

/-- Counterexample to C8 as stated: in a mixed snapshot (`A` with pmr 0 and
fpts 10; `B` live with pmr 4 and fpts 5) a possible noise stream makes `B`
overtake `A` in one of two trials, so the pmr-0 entry `A` receives the
fractional winProbability 1/2 — neither 0 nor 1. -/
theorem dfs_win_probs_pmr_zero_cex :
    dfMixed.get? 0 = some { teamName := "A".toList, fpts := some 10, pmr := some 0 } ∧
      ((dfs_win_probs dfMixed (1/2) wMixed 2).map (fun o => o.winProb)).get? 0 =
        some (1/2) ∧
      ¬((1 : ℚ)/2 = 0 ∨ (1 : ℚ)/2 = 1) := by
  refine ⟨by decide, ?_, by norm_num⟩
  have h0 : drawsRow dfMixed (1/2) wMixed 0 = [some 10, some 106] := by
    norm_num [drawsRow, drawsFrom, dfMixed, wMixed, drawF, muF, varF, addF, divC, mulC]
  have h1 : drawsRow dfMixed (1/2) wMixed 1 = [some 10, some (-94)] := by
    norm_num [drawsRow, drawsFrom, dfMixed, wMixed, drawF, muF, varF, addF, divC, mulC]
  have hw : winnersL dfMixed (1/2) wMixed 2 = [1, 0] := by
    rw [winnersL, show List.range 2 = [0, 1] by decide, List.map_cons, List.map_cons,
      List.map_nil, h0, h1]
    decide
  have hp : winProbQ dfMixed (1/2) wMixed 2 0 = 1/2 := by
    rw [winProbQ, hw]
    norm_num
  rw [winProb_column_get dfMixed (1/2) wMixed 2 0 (by decide), hp]

/-! ## Helper lemmas: NaN rows and `argmax` -/

theorem findIdx_get?_of_lt {α : Type} (p : α → Bool) :
    ∀ l : List α, l.findIdx p < l.length →
      ∃ x, l.get? (l.findIdx p) = some x ∧ p x = true := by
  intro l
  induction l with
  | nil => intro h; simp at h
  | cons a t ih =>
    intro h
    by_cases ha : p a
    · exact ⟨a, by simp [List.findIdx_cons, ha], ha⟩
    · rw [List.findIdx_cons] at h ⊢
      simp only [ha, cond_false] at h ⊢
      obtain ⟨x, hx, hpx⟩ := ih (by simpa using Nat.lt_of_succ_lt_succ h)
      exact ⟨x, by simpa using hx, hpx⟩

theorem argmaxF_first_none :
    ∀ l : List F, l.findIdx (fun x => x.isNone) < l.length →
      argmaxF l = l.findIdx (fun x => x.isNone) := by
  intro l
  induction l with
  | nil => intro h; simp at h
  | cons x xs ih =>
    intro h
    by_cases hx : x.isNone
    · rw [argmaxF_cons, if_pos hx, List.findIdx_cons, hx, cond_true]
    · rw [List.findIdx_cons] at h ⊢
      simp only [Bool.not_eq_true] at hx
      simp only [hx, cond_false] at h ⊢
      have hlt : xs.findIdx (fun x => x.isNone) < xs.length := by
        simpa using Nat.lt_of_succ_lt_succ h
      obtain ⟨x', hx', hpx'⟩ := findIdx_get?_of_lt (fun x => x.isNone) xs hlt
      have hx'none : x' = none := Option.isNone_iff_eq_none.mp hpx'
      rw [argmaxF_cons, hx]
      simp only [Bool.false_eq_true, if_false]
      rw [ih hlt, hx', hx'none]

theorem findIdx_map_eq {α β : Type} :
    ∀ (l₁ : List α) (l₂ : List β) (q : α → Bool) (p : β → Bool),
      l₁.map q = l₂.map p → l₁.findIdx q = l₂.findIdx p := by
  intro l₁
  induction l₁ with
  | nil =>
    intro l₂ q p h
    cases l₂ with
    | nil => rfl
    | cons b t => simp at h
  | cons a t ih =>
    intro l₂ q p h
    cases l₂ with
    | nil => simp at h
    | cons b t₂ =>
      simp only [List.map_cons, List.cons.injEq] at h
      rw [List.findIdx_cons, List.findIdx_cons, h.1, ih t₂ q p h.2]

theorem drawF_isNone (sigma2 : ℚ) (r : SimRow) (wv : ℚ) (h2 : 0 ≤ sigma2)
    (hpnn : ∀ p, r.pmr = some p → 0 ≤ p) :
    (drawF (muF r) (varF sigma2 r) wv).isNone =
      !(r.fpts.isSome && r.pmr.isSome) := by
  cases hf : r.fpts with
  | none => simp [muF, addF, hf, drawF]
  | some f =>
    cases hp : r.pmr with
    | none => simp [muF, addF, divC, hf, hp, drawF]
    | some p =>
      have hmu : muF r = some (f + p / 4) := muF_some r f p hf hp
      have hv : varF sigma2 r = some (sigma2 * p) := by simp [varF, mulC, hp]
      rw [hmu, hv]
      simp only [drawF]
      by_cases hz : sigma2 * p = 0
      · simp [hz]
      · have : 0 < sigma2 * p := lt_of_le_of_ne (mul_nonneg h2 (hpnn p hp)) (Ne.symm hz)
        simp [hz, this]

theorem drawsFrom_isNone_map (sigma2 : ℚ) (w : ℕ → ℕ → ℚ) (t : ℕ) (h2 : 0 ≤ sigma2) :
    ∀ (l : List SimRow) (i : ℕ), (∀ r ∈ l, ∀ p, r.pmr = some p → 0 ≤ p) →
      (drawsFrom sigma2 w t i l).map Option.isNone =
        l.map (fun r => !(r.fpts.isSome && r.pmr.isSome)) := by
  intro l
  induction l with
  | nil => intro i _; rfl
  | cons r rest ih =>
    intro i h
    rw [drawsFrom, List.map_cons, List.map_cons,
      drawF_isNone sigma2 r _ h2 (h r (List.mem_cons_self r rest)),
      ih (i + 1) (fun r' hr' => h r' (List.mem_cons_of_mem r hr'))]

theorem winnersL_singleton (r : SimRow) (sigma2 : ℚ) (w : ℕ → ℕ → ℚ) (sims : ℕ) :
    winnersL [r] sigma2 w sims = List.replicate sims 0 := by
  rw [winnersL]
  calc (List.range sims).map (fun t => argmaxF (drawsRow [r] sigma2 w t))
      = (List.range sims).map (fun _ => 0) :=
        List.map_congr_left (fun t _ => by
          rw [drawsRow, drawsFrom, drawsFrom, argmaxF_singleton])
    _ = List.replicate sims 0 := by rw [List.map_const', List.length_range]

/-! ## C3: rows with missing fpts/pmr are *not* excluded -/

/-- C3, amended.  `dfs_win_probs` never filters rows whose fpts or pmr is
missing: the NaN propagates through `mu`/`std` into every draw of that row,
`np.argmax` returns the first NaN index in every trial, and so the first
such row receives winProbability exactly 1 while every other row receives
0.  Excluded-candidate rows therefore do influence the output, and running
the engine on the restricted snapshot gives different results. -/
theorem dfs_win_probs_nan_row_dominates (df : List SimRow) (sigma2 : ℚ)
    (w : ℕ → ℕ → ℚ) (sims i : ℕ) (h2 : 0 ≤ sigma2)
    (hpnn : ∀ r ∈ df, ∀ p, r.pmr = some p → 0 ≤ p) (hs : 0 < sims)
    (hfind : df.findIdx (fun r => !(r.fpts.isSome && r.pmr.isSome)) = i)
    (hi : i < df.length) :
    ((dfs_win_probs df sigma2 w sims).map (fun o => o.winProb)).get? i = some 1 ∧
      ∀ j, j < df.length → j ≠ i →
        ((dfs_win_probs df sigma2 w sims).map (fun o => o.winProb)).get? j = some 0 := by
  have hconst : ∀ t, argmaxF (drawsRow df sigma2 w t) = i := by
    intro t
    have hmap : (drawsRow df sigma2 w t).map Option.isNone =
        df.map (fun r => !(r.fpts.isSome && r.pmr.isSome)) :=
      drawsFrom_isNone_map sigma2 w t h2 df 0 hpnn
    have hidx : (drawsRow df sigma2 w t).findIdx (fun x => x.isNone) = i := by
      rw [findIdx_map_eq (drawsRow df sigma2 w t) df (fun x => x.isNone)
        (fun r => !(r.fpts.isSome && r.pmr.isSome)) hmap, hfind]
    have hlen : (drawsRow df sigma2 w t).length = df.length := length_drawsFrom _ _ _ 0 df
    rw [argmaxF_first_none (drawsRow df sigma2 w t) (by rw [hidx, hlen]; exact hi), hidx]
  have hw : winnersL df sigma2 w sims = List.replicate sims i := by
    rw [winnersL]
    calc (List.range sims).map (fun t => argmaxF (drawsRow df sigma2 w t))
        = (List.range sims).map (fun _ => i) :=
          List.map_congr_left (fun t _ => hconst t)
      _ = List.replicate sims i := by rw [List.map_const', List.length_range]
  constructor
  · rw [winProb_column_get df sigma2 w sims i hi,
      winProbQ_replicate df sigma2 w sims i hw hs i, if_pos rfl]
  · intro j hj hne
    rw [winProb_column_get df sigma2 w sims j hj,
      winProbQ_replicate df sigma2 w sims i hw hs j, if_neg hne]

/-- Witness for C3 (amended) at the concrete snapshot `dfNanRow`. -/
theorem dfs_win_probs_nan_row_dominates_wit :
    ((dfs_win_probs dfNanRow 1 wZero 2).map (fun o => o.winProb)).get? 0 = some 1 ∧
      ∀ j, j < dfNanRow.length → j ≠ 0 →
        ((dfs_win_probs dfNanRow 1 wZero 2).map (fun o => o.winProb)).get? j = some 0 :=
  dfs_win_probs_nan_row_dominates dfNanRow 1 wZero 2 0 (by norm_num)
    (by intro r hr p hp
        fin_cases hr <;> simp_all)
    (by decide) (by decide) (by decide)

/-- Counterexample to C3 as stated: on `dfNanRow` (row `A` missing fpts,
row `B` complete) the engine gives `A` winProbability 1 and `B` 0, while on
the snapshot restricted to the valid rows `B` gets 1: the missing-field row
is not excluded, and its presence changes `B`'s winProbability. -/
theorem dfs_win_probs_missing_rows_cex :
    (dfs_win_probs dfNanRow (1/2) wZero 4).map (fun o => o.winProb) = [1, 0] ∧
      (dfs_win_probs dfNanRowValid (1/2) wZero 4).map (fun o => o.winProb) = [1] ∧
      ((dfs_win_probs dfNanRow (1/2) wZero 4).map (fun o => o.winProb)).get? 1 ≠
        ((dfs_win_probs dfNanRowValid (1/2) wZero 4).map (fun o => o.winProb)).get? 0 := by
  have hw1 : winnersL dfNanRow (1/2) wZero 4 = [0, 0, 0, 0] := by decide
  have hfull : (dfs_win_probs dfNanRow (1/2) wZero 4).map (fun o => o.winProb) = [1, 0] := by
    rw [dfs_win_probs, outFrom_map_winProb dfNanRow (1/2) wZero 4 dfNanRow 0,
      show List.range' 0 dfNanRow.length = [0, 1] from rfl, List.map_cons, List.map_cons,
      List.map_nil, winProbQ, winProbQ, hw1]
    norm_num
  have hrest : (dfs_win_probs dfNanRowValid (1/2) wZero 4).map (fun o => o.winProb) = [1] := by
    rw [dfs_win_probs, outFrom_map_winProb dfNanRowValid (1/2) wZero 4 dfNanRowValid 0,
      show List.range' 0 dfNanRowValid.length = [0] from rfl, List.map_cons, List.map_nil,
      winProbQ_replicate dfNanRowValid (1/2) wZero 4 0
        (winnersL_singleton _ (1/2) wZero 4) (by norm_num) 0, if_pos rfl]
  refine ⟨hfull, hrest, ?_⟩
  rw [hfull, hrest]
  norm_num

/-! ## Helper lemmas: stability of the rank sort -/

theorem filter_orderedInsert (k : WithTop ℤ) (x : Row) :
    ∀ s : List Row,
      (List.orderedInsert rankLe x s).filter (fun r => decide (rkey r = k)) =
        if rkey x = k then x :: s.filter (fun r => decide (rkey r = k))
        else s.filter (fun r => decide (rkey r = k)) := by
  intro s
  induction s with
  | nil => by_cases hx : rkey x = k <;> simp [List.orderedInsert, List.filter_cons, hx]
  | cons y s ih =>
    by_cases hxy : rankLe x y
    · by_cases hx : rkey x = k <;>
        simp [List.orderedInsert, hxy, List.filter_cons, hx]
    · have hlt : rkey y < rkey x := not_le.mp hxy
      rw [List.orderedInsert, if_neg hxy, List.filter_cons]
      by_cases hx : rkey x = k
      · have hy : ¬(rkey y = k) := by
          intro h
          rw [← hx] at h
          exact absurd (h ▸ hlt) (lt_irrefl _)
        simp [hy, hx, ih, List.filter_cons]
      · by_cases hy : rkey y = k <;>
          simp [List.filter_cons, hy, ih, hx]

theorem filter_insertionSort (k : WithTop ℤ) :
    ∀ l : List Row,
      (List.insertionSort rankLe l).filter (fun r => decide (rkey r = k)) =
        l.filter (fun r => decide (rkey r = k)) := by
  intro l
  induction l with
  | nil => rfl
  | cons x l ih =>
    rw [List.insertionSort, filter_orderedInsert k x, List.filter_cons]
    by_cases hx : rkey x = k <;> simp [hx, ih]

/-! ## C7: when the frame is sorted and when order is preserved -/

/-- C7, amended.  `parse_dk_standings` sorts by rank whenever *at least one*
kept row has a rank (`df["Rank"].notna().any()`), not only when all do:
the output is then a permutation of the parsed rows, sorted by the
missing-ranks-last key, and stable (rows with equal key keep their relative
order: every key's filter is unchanged).  Insertion order is preserved
exactly when no kept row has a rank. -/
theorem parse_dk_standings_sort (rs : List RawRow) :
    ((rs.filterMap parseRow).any (fun r => r.rank.isSome) = true →
      (parse_dk_standings rs).Perm (rs.filterMap parseRow) ∧
        List.Sorted rankLe (parse_dk_standings rs) ∧
        ∀ k : WithTop ℤ,
          (parse_dk_standings rs).filter (fun r => decide (rkey r = k)) =
            (rs.filterMap parseRow).filter (fun r => decide (rkey r = k))) ∧
    ((rs.filterMap parseRow).any (fun r => r.rank.isSome) = false →
      parse_dk_standings rs = rs.filterMap parseRow) := by
  constructor
  · intro hany
    have hne : ¬(rs.filterMap parseRow).isEmpty := by
      cases h : rs.filterMap parseRow with
      | nil => rw [h] at hany; simp at hany
      | cons a t => simp [h]
    rw [parse_dk_standings, if_pos ⟨hne, hany⟩]
    exact ⟨List.perm_insertionSort rankLe _, List.sorted_insertionSort rankLe _,
      fun k => filter_insertionSort k _⟩
  · intro hany
    rw [parse_dk_standings, if_neg]
    intro hcond
    rw [hany] at hcond
    simp at hcond

/-- Counterexample to C7 as stated: with a rankless `ann` row followed by a
ranked `bob` row, only *some* entries have ranks, yet the code sorts —
`bob` (rank 1) first, missing-rank `ann` last — instead of preserving
insertion order `[ann, bob]`. -/
theorem parse_dk_standings_order_cex :
    (parse_dk_standings rsMixedRank).map (fun r => r.teamName) =
      [some "bob".toList, some "ann".toList] ∧
      (rsMixedRank.filterMap parseRow).map (fun r => r.teamName) =
        [some "ann".toList, some "bob".toList] ∧
      parse_dk_standings rsMixedRank ≠ rsMixedRank.filterMap parseRow := by decide

/-! ## Helper lemmas: first-seen dedup in the collector -/

theorem validEntries_cons (r : MountedRow) (rest : List MountedRow) :
    validEntries (r :: rest) =
      (match userOf r with
       | none => validEntries rest
       | some u =>
         { username := u, rank := r.rank, points := r.points } :: validEntries rest) := by
  cases hu : userOf r <;> simp [validEntries, List.filterMap_cons, hu]

theorem collectRows_spec : ∀ (rows : List MountedRow) (seen : List Str) (acc : List Entry),
    (collectRows seen acc rows).2 = acc ++ dedupFirst (validEntries rows) seen ∧
      ∀ u, u ∈ (collectRows seen acc rows).1 ↔
        u ∈ seen ∨ u ∈ (dedupFirst (validEntries rows) seen).map Entry.username := by
  intro rows
  induction rows with
  | nil => intro seen acc; exact ⟨by simp [collectRows, validEntries, dedupFirst], by
      intro u; simp [collectRows, validEntries, dedupFirst]⟩
  | cons r rest ih =>
    intro seen acc
    rw [validEntries_cons]
    cases hu : userOf r with
    | none => simpa [collectRows, hu] using ih seen acc
    | some u =>
      by_cases hmem : u ∈ seen
      · have h1 := ih seen acc
        constructor
        · rw [collectRows, hu]
          simp only [hmem, if_pos]
          rw [h1.1, dedupFirst, if_pos hmem]
        · intro u'
          rw [collectRows, hu]
          simp only [hmem, if_pos]
          rw [dedupFirst, if_pos hmem]
          exact h1.2 u'
      · have h1 := ih (u :: seen)
          (acc ++ [{ username := u, rank := r.rank, points := r.points }])
        constructor
        · rw [collectRows, hu]
          simp only [hmem, if_neg, if_false]
          rw [h1.1, dedupFirst, if_neg hmem, List.append_assoc]
          rfl
        · intro u'
          rw [collectRows, hu]
          simp only [hmem, if_neg, if_false]
          rw [dedupFirst, if_neg hmem]
          rw [h1.2 u']
          simp only [List.mem_cons, List.map_cons]
          tauto

theorem dedupFirst_nodup : ∀ (l : List Entry) (s : List Str),
    ((dedupFirst l s).map Entry.username).Nodup ∧
      ∀ u ∈ (dedupFirst l s).map Entry.username, u ∉ s := by
  intro l
  induction l with
  | nil => intro s; simp [dedupFirst]
  | cons e es ih =>
    intro s
    by_cases hmem : e.username ∈ s
    · rw [dedupFirst, if_pos hmem]
      exact ih s
    · rw [dedupFirst, if_neg hmem]
      have h1 := ih (e.username :: s)
      constructor
      · rw [List.map_cons, List.nodup_cons]
        exact ⟨fun hc => (h1.2 _ hc) (List.mem_cons_self _ _), h1.1⟩
      · intro u hu
        rw [List.map_cons, List.mem_cons] at hu
        cases hu with
        | inl h => rw [h]; exact hmem
        | inr h => exact fun hs => (h1.2 u h) (List.mem_cons_of_mem _ hs)

theorem dedupFirst_sublist : ∀ (l : List Entry) (s : List Str), List.Sublist (dedupFirst l s) l := by
  intro l
  induction l with
  | nil => intro s; simp [dedupFirst]
  | cons e es ih =>
    intro s
    by_cases hmem : e.username ∈ s
    · rw [dedupFirst, if_pos hmem]
      exact (ih s).cons e
    · rw [dedupFirst, if_neg hmem]
      exact (ih (e.username :: s)).cons₂ e

theorem dedupFirst_find? : ∀ (l : List Entry) (s : List Str) (u : Str), u ∉ s →
    (dedupFirst l s).find? (fun e => e.username == u) =
      l.find? (fun e => e.username == u) := by
  intro l
  induction l with
  | nil => intro s u _; simp [dedupFirst]
  | cons e es ih =>
    intro s u hu
    by_cases hmem : e.username ∈ s
    · have hne : (e.username == u) = false := by
        simp only [beq_eq_false_iff_ne, ne_eq]
        intro h
        exact hu (h ▸ hmem)
      rw [dedupFirst, if_pos hmem, ih s u hu]
      simp [List.find?_cons, hne]
    · by_cases heq : e.username = u
      · rw [dedupFirst, if_neg hmem]
        simp [List.find?_cons, heq]
      · have hu' : u ∉ e.username :: s := by
          rw [List.mem_cons]
          rintro (h | h)
          · exact heq h.symm
          · exact hu h
        have hne : (e.username == u) = false := by simp [heq]
        rw [dedupFirst, if_neg hmem]
        simp only [List.find?_cons, hne]
        exact ih (e.username :: s) u hu'

theorem dedupFirst_congr : ∀ (l : List Entry) (s₁ s₂ : List Str),
    (∀ u, u ∈ s₁ ↔ u ∈ s₂) → dedupFirst l s₁ = dedupFirst l s₂ := by
  intro l
  induction l with
  | nil => intro s₁ s₂ _; rfl
  | cons e es ih =>
    intro s₁ s₂ h
    by_cases hmem : e.username ∈ s₁
    · rw [dedupFirst, if_pos hmem, dedupFirst, if_pos ((h _).mp hmem), ih s₁ s₂ h]
    · rw [dedupFirst, if_neg hmem, dedupFirst, if_neg (fun hc => hmem ((h _).mpr hc)),
        ih (e.username :: s₁) (e.username :: s₂) (fun u => by
          simp only [List.mem_cons]
          exact or_congr Iff.rfl (h u))]

theorem dedupFirst_append : ∀ (xs ys : List Entry) (s : List Str),
    dedupFirst (xs ++ ys) s =
      dedupFirst xs s ++ dedupFirst ys ((dedupFirst xs s).map Entry.username ++ s) := by
  intro xs
  induction xs with
  | nil => intro ys s; simp [dedupFirst]
  | cons e es ih =>
    intro ys s
    by_cases hmem : e.username ∈ s
    · rw [List.cons_append, dedupFirst, if_pos hmem, dedupFirst, if_pos hmem, ih ys s]
    · rw [List.cons_append, dedupFirst, if_neg hmem, ih ys (e.username :: s), dedupFirst,
        if_neg hmem]
      have hc := dedupFirst_congr ys
        ((dedupFirst es (e.username :: s)).map Entry.username ++ (e.username :: s))
        ((e :: dedupFirst es (e.username :: s)).map Entry.username ++ s)
        (fun u' => by
          simp only [List.map_cons, List.mem_append, List.mem_cons]
          tauto)
      rw [hc]
      simp

theorem readStream_succ (view : ℕ → List MountedRow) (k : ℕ) :
    readStream view (k + 1) = readStream view k ++ validEntries (view k) := by
  rw [readStream, readStream, List.range_succ, List.map_append, List.flatten_append]
  simp

theorem scrapeLoop_dedup : ∀ (fuel : ℕ) (view : ℕ → List MountedRow) (k : ℕ)
    (seen : List Str) (acc : List Entry) (prev : ℤ) (res : List Entry),
    (∀ u, u ∈ seen ↔ u ∈ acc.map Entry.username) →
    acc = dedupFirst (readStream view k) [] →
    scrapeLoop view fuel k seen acc prev = some res →
    ∃ m, res = dedupFirst (readStream view m) [] := by
  intro fuel
  induction fuel with
  | zero => intro view k seen acc prev res _ _ h; exact Option.noConfusion h
  | succ fuel ih =>
    intro view k seen acc prev res hseen hacc h
    rw [scrapeLoop] at h
    have hcoll := collectRows_spec (view k) seen acc
    have hstep : (collectRows seen acc (view k)).2 =
        dedupFirst (readStream view (k + 1)) [] := by
      rw [hcoll.1, readStream_succ, dedupFirst_append, hacc]
      congr 1
      apply dedupFirst_congr
      intro u
      rw [← hacc]
      simp only [List.append_nil]
      exact hseen u
    by_cases hdone : ((collectRows seen acc (view k)).2.length : ℤ) = prev
    · rw [if_pos hdone] at h
      exact ⟨k + 1, (Option.some.inj h).symm.trans hstep⟩
    · rw [if_neg hdone] at h
      refine ih view (k + 1) (collectRows seen acc (view k)).1
        (collectRows seen acc (view k)).2 _ res ?_ hstep h
      intro u
      rw [hcoll.2 u, hcoll.1, hseen u]
      simp only [List.map_append, List.mem_append]

/-! ## C4: first-seen dedup — where it holds and where it does not -/

/-- C4, amended.  The standalone collector `data_downloader/scraper.py
scrape_standings` does dedup by team identity: whenever it returns, its
result is the first-seen dedup of the concatenated reads, so each username
occurs exactly once, the surviving entries are a sublist of the read stream
(first-seen order, first-seen field values), and each username's entry is
the *first* entry of the stream carrying that username.  The persistence
path (`refresh_and_scrape` → `parse_dk_standings` → CSV) performs no such
dedup — see the counterexample. -/
theorem scrape_standings_dedup (view : ℕ → List MountedRow) (fuel : ℕ) (res : List Entry)
    (h : scrape_standings view fuel = some res) :
    ∃ m, res = dedupFirst (readStream view m) [] ∧
      (res.map Entry.username).Nodup ∧
      List.Sublist res (readStream view m) ∧
      ∀ u, res.find? (fun e => e.username == u) =
        (readStream view m).find? (fun e => e.username == u) := by
  obtain ⟨m, hm⟩ := scrapeLoop_dedup fuel view 0 [] [] (-1) res
    (by simp) (by rw [readStream]; rfl) h
  refine ⟨m, hm, ?_, ?_, ?_⟩
  · rw [hm]; exact (dedupFirst_nodup (readStream view m) []).1
  · rw [hm]; exact dedupFirst_sublist (readStream view m) []
  · intro u
    rw [hm]
    exact dedupFirst_find? (readStream view m) [] u (List.not_mem_nil u)

/-- Witness for C4 (amended): the two-duplicate-rows view collapses to one
`ann` entry with the first-seen rank and points. -/
theorem scrape_standings_dedup_wit :
    ∃ m, ([{ username := "ann".toList, rank := 1, points := 10 }] : List Entry) =
        dedupFirst (readStream viewAnn m) [] ∧
      (([{ username := "ann".toList, rank := 1, points := 10 }] : List Entry).map
        Entry.username).Nodup ∧
      List.Sublist [{ username := "ann".toList, rank := 1, points := 10 }]
        (readStream viewAnn m) ∧
      ∀ u, ([{ username := "ann".toList, rank := 1, points := 10 }] : List Entry).find?
          (fun e => e.username == u) =
        (readStream viewAnn m).find? (fun e => e.username == u) :=
  scrape_standings_dedup viewAnn 5 [{ username := "ann".toList, rank := 1, points := 10 }]
    (by decide)

/-- Counterexample to C4 as stated: the snapshot actually persisted is
`parse_dk_standings` of the captured page, which keeps duplicate team
names — two mounted rows resolving to team `ann` both survive into the
assembled result. -/
theorem parse_dk_standings_dup_team_cex :
    (parse_dk_standings [rawAnn, rawAnn]).map (fun r => r.teamName) =
      [some "ann".toList, some "ann".toList] ∧
      ¬((parse_dk_standings [rawAnn, rawAnn]).map (fun r => r.teamName)).Nodup := by
  exact ⟨by decide, by decide⟩

/-! ## Helper lemmas: the adversarial ever-growing view (C5) -/

theorem vsfPat_cons : vsfPat = 'v' :: "iew standings for".toList := by decide

theorem isPrefixOf_append_self : ∀ (p t : Str), p.isPrefixOf (p ++ t) = true := by
  intro p t
  induction p with
  | nil => simp
  | cons c cs ih => simpa [List.cons_append, List.isPrefixOf_cons₂_self] using ih

theorem labelG_eq_append (n : ℕ) : labelG n = vsfPat ++ ' ' :: unameG n := rfl

theorem labelG_cons (n : ℕ) :
    labelG n = 'v' :: ("iew standings for".toList ++ ' ' :: unameG n) := by
  rw [labelG_eq_append, vsfPat_cons, List.cons_append]

theorem pyContains_label (n : ℕ) : pyContains (labelG n) vsfPat = true := by
  rw [labelG_cons, pyContains]
  have hpre : vsfPat.isPrefixOf
      ('v' :: ("iew standings for".toList ++ ' ' :: unameG n)) = true := by
    rw [← List.cons_append, ← vsfPat_cons]
    exact isPrefixOf_append_self vsfPat (' ' :: unameG n)
  rw [hpre, Bool.true_or]

theorem no_v_replace : ∀ (fuel : ℕ) (l : Str), (∀ c ∈ l, c ≠ 'v') →
    pyReplaceAux vsfPat [] fuel l = l := by
  intro fuel
  induction fuel with
  | zero => intro l _; rfl
  | succ fuel ih =>
    intro l h
    cases l with
    | nil => rfl
    | cons c cs =>
      have hc : c ≠ 'v' := h c (List.mem_cons_self c cs)
      have hpre : vsfPat.isPrefixOf (c :: cs) = false := by
        rw [vsfPat_cons, List.isPrefixOf_cons₂]
        simp [Ne.symm hc]
      rw [pyReplaceAux, if_neg (fun hcond => by
          have h2 := hcond.2
          rw [hpre] at h2
          exact Bool.noConfusion h2),
        ih cs (fun c' hc' => h c' (List.mem_cons_of_mem c hc'))]

theorem no_v_in_tail (n : ℕ) : ∀ c ∈ ' ' :: unameG n, c ≠ 'v' := by
  intro c hc
  rcases List.mem_cons.mp hc with h | h
  · rw [h]; decide
  · rw [(List.mem_replicate.mp h).2]; decide

theorem pyReplace_label (n : ℕ) : pyReplace (labelG n) vsfPat [] = ' ' :: unameG n := by
  have happ : 'v' :: ("iew standings for".toList ++ ' ' :: unameG n) =
      vsfPat ++ ' ' :: unameG n := by
    rw [vsfPat_cons, List.cons_append]
  rw [pyReplace, labelG_cons, List.length_cons, pyReplaceAux,
    if_pos ⟨by rw [vsfPat_cons]; simp, by rw [happ]; exact isPrefixOf_append_self _ _⟩,
    List.nil_append]
  have hdrop : ('v' :: ("iew standings for".toList ++ ' ' :: unameG n)).drop
      vsfPat.length = ' ' :: unameG n := by
    rw [happ]
    exact List.drop_left vsfPat _
  rw [hdrop]
  exact no_v_replace _ _ (no_v_in_tail n)

theorem pyStrip_space_uname (n : ℕ) : pyStrip (' ' :: unameG n) = unameG n := by
  rw [pyStrip]
  have h1 : (' ' :: unameG n).dropWhile Char.isWhitespace = unameG n := by
    rw [List.dropWhile_cons_of_pos (by decide), unameG, List.replicate_succ,
      List.dropWhile_cons_of_neg (by decide), ← List.replicate_succ]
  rw [h1, unameG, List.reverse_replicate, List.replicate_succ,
    List.dropWhile_cons_of_neg (by decide), ← List.replicate_succ, List.reverse_replicate]

theorem userOf_rowGrow (n : ℕ) : userOf (rowGrow n) = some (unameG n) := by
  simp only [userOf, rowGrow]
  rw [if_neg, pyReplace_label, pyStrip_space_uname]
  rintro (h | h)
  · rw [labelG_cons] at h
    exact List.noConfusion h
  · exact h (pyContains_label n)

theorem seenG_succ (k : ℕ) : seenG (k + 1) = unameG k :: seenG k := by
  rw [seenG, seenG, List.range_succ, List.map_append, List.reverse_append]
  simp

theorem accG_succ (k : ℕ) :
    accG (k + 1) = accG k ++ [{ username := unameG k, rank := 0, points := 0 }] := by
  rw [accG, accG, List.range_succ, List.map_append]
  simp

theorem unameG_not_mem_seenG (k : ℕ) : unameG k ∉ seenG k := by
  rw [seenG, List.mem_reverse]
  intro h
  obtain ⟨j, hj, hEq⟩ := List.mem_map.mp h
  have hlen : j + 1 = k + 1 := by
    have := congrArg List.length hEq
    simpa [unameG] using this
  rw [List.mem_range] at hj
  omega

theorem collect_step_grow (k : ℕ) :
    collectRows (seenG k) (accG k) (viewGrow k) = (seenG (k + 1), accG (k + 1)) := by
  simp only [viewGrow, collectRows, userOf_rowGrow]
  rw [if_neg (unameG_not_mem_seenG k), seenG_succ, accG_succ]
  rfl

/-! ## C5: the scroll loop has no iteration bound and no timeout -/

/-- C5 (code-bug evidence).  On a view whose virtualized list never
stabilizes — each scroll mounts one fresh username, so the result size
grows by one every iteration — `scrape_standings` never returns, for any
amount of fuel: the `while True` loop has no maximum-iteration bound and no
`StabilizationTimeout` path, so a never-stabilizing view spins forever
instead of raising. -/
theorem scrapeLoop_grow_none : ∀ (fuel k : ℕ) (prev : ℤ), prev ≠ (k : ℤ) + 1 →
    scrapeLoop viewGrow fuel k (seenG k) (accG k) prev = none := by
  intro fuel
  induction fuel with
  | zero => intro k prev _; rfl
  | succ fuel ih =>
    intro k prev hprev
    have hlen : (accG (k + 1)).length = k + 1 := by simp [accG]
    simp only [scrapeLoop, collect_step_grow k]
    rw [if_neg (by
      rw [hlen]
      intro h
      exact hprev (by exact_mod_cast h.symm)), hlen]
    exact ih (k + 1) ((k + 1 : ℕ) : ℤ) (by push_cast; omega)

/-- C5: the code, run on the never-stabilizing view, neither terminates nor
raises any error within any number of iterations. -/
theorem scrape_standings_never_times_out :
    ∀ fuel : ℕ, scrape_standings viewGrow fuel = none := by
  intro fuel
  have h0 : seenG 0 = [] := rfl
  have h1 : accG 0 = [] := rfl
  rw [scrape_standings, ← h0, ← h1]
  exact scrapeLoop_grow_none fuel 0 (-1) (by decide)
